import Mathlib

/-!
Shallow embedding of the magi SM83 emulator core (src/cpu/registers.rs,
src/cpu/opcodes.rs, src/cpu/sm83.rs, src/mmu.rs) and proofs about it.

Modelling conventions:
* Machine integers (u8, u16, usize) are embedded as Nat; theorems carry the
  domain bounds (< 256, < 65536) as hypotheses where they matter.
* Rust Vec<u8> buffers are embedded as List Nat.
* Fallible operations return Option; a Rust panic (including the explicit
  one in MMU::get_location for the unusable address range, the expect in
  increment_hl_addr, and an out-of-bounds Vec index in write_byte) is
  embedded as the value none.
* The per-register functions that the Rust macros increment8!/decrement8!/
  increment16!/decrement16!/add_to_hl! expand to are embedded as single
  functions parametrised by the register (pair) name, exactly mirroring the
  macro bodies.
-/

namespace Magi

/-- Flag names of the SM83 flag register (src/cpu/registers.rs, enum Flag). -/
inductive Flag where
  | Zero
  | Subtract
  | HalfCarry
  | Carry
deriving DecidableEq

/-- Bit assigned to each flag (src/cpu/registers.rs, Flag::value). -/
def Flag.value : Flag → Nat
  | .Zero => 0x80
  | .Subtract => 0x40
  | .HalfCarry => 0x20
  | .Carry => 0x10

/-- Flag register: a single byte (src/cpu/registers.rs, struct FlagRegister). -/
structure FlagRegister where
  value : Nat
deriving DecidableEq

/-- FlagRegister::new -- all flags start cleared. -/
def FlagRegister.new : FlagRegister := ⟨0⟩

/-- FlagRegister::check -- source: (flag.value() & self.value) == flag,
where the PartialEq impl compares against flag.value(). -/
def FlagRegister.check (fr : FlagRegister) (flag : Flag) : Bool :=
  (flag.value &&& fr.value) == flag.value

/-- FlagRegister::set -- source: self.value |= flag. -/
def FlagRegister.set (fr : FlagRegister) (flag : Flag) : FlagRegister :=
  ⟨fr.value ||| flag.value⟩

/-- FlagRegister::unset -- source: self.value &= !flag; the bitwise NOT of a
u8 is embedded as XOR with 0xFF. -/
def FlagRegister.unset (fr : FlagRegister) (flag : Flag) : FlagRegister :=
  ⟨fr.value &&& (0xFF ^^^ flag.value)⟩

/-- FlagRegister::clear -- source: self.value = 0b0000_0000. -/
def FlagRegister.clear (_fr : FlagRegister) : FlagRegister := ⟨0⟩

/-- Register bank (src/cpu/registers.rs, struct SM83RegisterBank). -/
structure SM83RegisterBank where
  a : Nat
  b : Nat
  c : Nat
  d : Nat
  e : Nat
  h : Nat
  l : Nat
  flags : FlagRegister
  pc : Nat
  sp : Nat
  m : Nat
  t : Nat
deriving DecidableEq

/-- SM83RegisterBank::new -- everything zeroed. -/
def SM83RegisterBank.new : SM83RegisterBank :=
  ⟨0, 0, 0, 0, 0, 0, 0, FlagRegister.new, 0, 0, 0, 0⟩

/-- SM83RegisterBank::combined -- source: u16::from_le_bytes([first, second]),
so the FIRST argument is the low byte. -/
def SM83RegisterBank.combined (first second : Nat) : Nat :=
  first + 256 * second

/-- SM83RegisterBank::split -- source: value.to_le_bytes(), returning the
low byte first. -/
def SM83RegisterBank.split (value : Nat) : Nat × Nat :=
  (value % 256, value / 256)

/-- SM83RegisterBank::hl -- source: self.combined(self.h, self.l), so h is
used as the LOW byte of the pair. -/
def SM83RegisterBank.hl (cpu : SM83RegisterBank) : Nat :=
  SM83RegisterBank.combined cpu.h cpu.l

/-- SM83RegisterBank::set_hl -- source: splits and stores h = low byte,
l = high byte. -/
def SM83RegisterBank.set_hl (cpu : SM83RegisterBank) (value : Nat) :
    SM83RegisterBank :=
  let s := SM83RegisterBank.split value
  { cpu with h := s.1, l := s.2 }

/-- Names of the 8-bit registers, used to embed the per-register functions
generated by the macros in src/cpu/opcodes.rs as single parametrised
functions. -/
inductive Reg8 where
  | A
  | B
  | C
  | D
  | E
  | H
  | L
deriving DecidableEq

/-- Reading the 8-bit register cell named by a Reg8 (embeds the field
access cpu.registers.$reg in the macro bodies). -/
def SM83RegisterBank.get (cpu : SM83RegisterBank) : Reg8 → Nat
  | .A => cpu.a
  | .B => cpu.b
  | .C => cpu.c
  | .D => cpu.d
  | .E => cpu.e
  | .H => cpu.h
  | .L => cpu.l

/-- Writing the 8-bit register cell named by a Reg8 (embeds the field
assignment cpu.registers.$reg = v in the macro bodies). -/
def SM83RegisterBank.setReg (cpu : SM83RegisterBank) : Reg8 → Nat → SM83RegisterBank
  | .A, v => { cpu with a := v }
  | .B, v => { cpu with b := v }
  | .C, v => { cpu with c := v }
  | .D, v => { cpu with d := v }
  | .E, v => { cpu with e := v }
  | .H, v => { cpu with h := v }
  | .L, v => { cpu with l := v }

/-- Memory regions (src/mmu.rs, enum MemoryLocation). The source variant
named IO is embedded as IORegion. -/
inductive MemoryLocation where
  | Cartridge (addr : Nat)
  | CartridgeMBC (addr : Nat)
  | CartridgeRAM (addr : Nat)
  | VRAM (addr : Nat)
  | WRAM (addr : Nat)
  | EchoRAM (addr : Nat)
  | OAM (addr : Nat)
  | IORegion (addr : Nat)
  | HRAM (addr : Nat)
  | IE (addr : Nat)
deriving DecidableEq

/-- Backing storage of the MMU (src/mmu.rs, struct MMU). The source field
named io is embedded as io_regs. -/
structure MMU where
  wram : List Nat
  hram : List Nat
  vram : List Nat
  io_regs : List Nat
  cartridge : List Nat
  cartridge_mbc : List Nat
  cartridge_ram : List Nat
  oam : List Nat
  ie : List Nat
deriving DecidableEq

/-- MMU::new -- all buffers allocated zero-initialised with the sizes from
the source. -/
def MMU.new : MMU :=
  { wram := List.replicate 8192 0
    hram := List.replicate 128 0
    vram := List.replicate 8192 0
    io_regs := List.replicate 128 0
    cartridge := List.replicate 16384 0
    cartridge_mbc := List.replicate 16384 0
    cartridge_ram := List.replicate 16384 0
    oam := List.replicate 160 0
    ie := [0] }

/-- MemoryLocation::unwrap_value -- the offset stored in the variant. -/
def MemoryLocation.unwrap_value : MemoryLocation → Nat
  | .Cartridge addr => addr
  | .CartridgeMBC addr => addr
  | .CartridgeRAM addr => addr
  | .VRAM addr => addr
  | .WRAM addr => addr
  | .EchoRAM addr => addr
  | .OAM addr => addr
  | .IORegion addr => addr
  | .HRAM addr => addr
  | .IE addr => addr

/-- MemoryLocation::to_register -- pairs the buffer that backs a location
with the offset into it; EchoRAM shares the wram buffer. -/
def MemoryLocation.to_register (loc : MemoryLocation) (mmu : MMU) :
    List Nat × Nat :=
  (match loc with
    | .Cartridge _ => mmu.cartridge
    | .CartridgeMBC _ => mmu.cartridge_mbc
    | .VRAM _ => mmu.vram
    | .CartridgeRAM _ => mmu.cartridge_ram
    | .WRAM _ => mmu.wram
    | .EchoRAM _ => mmu.wram
    | .OAM _ => mmu.oam
    | .HRAM _ => mmu.hram
    | .IORegion _ => mmu.io_regs
    | .IE _ => mmu.ie,
   loc.unwrap_value)

/-- MMU::get_location -- the address decode table from the source, with the
offsets computed by XOR against the region base exactly as written. The
source arm for 0xFEA0..=0xFEFF panics; that arm is embedded as none. The
final arm of the source match is the single address 0xFFFF, which is mapped
to IE(0xFFFF) -- the raw address, not an offset. Addresses are u16 in the
source, so only inputs below 0x10000 are meaningful. -/
def MMU.get_location (addr : Nat) : Option MemoryLocation :=
  if addr ≤ 0x3FFF then some (.Cartridge addr)
  else if addr ≤ 0x7FFF then some (.CartridgeMBC (addr ^^^ 0x4000))
  else if addr ≤ 0x9FFF then some (.VRAM (addr ^^^ 0x8000))
  else if addr ≤ 0xBFFF then some (.CartridgeRAM (addr ^^^ 0xA000))
  else if addr ≤ 0xDFFF then some (.WRAM (addr ^^^ 0xC000))
  else if addr ≤ 0xFDFF then some (.EchoRAM (addr ^^^ 0xE000))
  else if addr ≤ 0xFE9F then some (.OAM (addr ^^^ 0xFE00))
  else if addr ≤ 0xFEFF then none
  else if addr ≤ 0xFF7F then some (.IORegion (addr ^^^ 0xFF00))
  else if addr ≤ 0xFFFE then some (.HRAM (addr ^^^ 0xFF80))
  else some (.IE 0xFFFF)

/-- MMU::read_byte -- Vec::get, absent when the offset is out of bounds;
none also embeds the panic raised by get_location on the unusable range. -/
def MMU.read_byte (mmu : MMU) (addr : Nat) : Option Nat :=
  match MMU.get_location addr with
  | none => none
  | some location =>
    let rp := location.to_register mmu
    rp.1.get? rp.2

/-- Helper for MMU::write_byte: store a value through a MemoryLocation into
the buffer chosen by to_register (EchoRAM writes land in wram). -/
def MMU.set_register (mmu : MMU) (loc : MemoryLocation) (value : Nat) : MMU :=
  match loc with
  | .Cartridge o => { mmu with cartridge := mmu.cartridge.set o value }
  | .CartridgeMBC o => { mmu with cartridge_mbc := mmu.cartridge_mbc.set o value }
  | .VRAM o => { mmu with vram := mmu.vram.set o value }
  | .CartridgeRAM o => { mmu with cartridge_ram := mmu.cartridge_ram.set o value }
  | .WRAM o => { mmu with wram := mmu.wram.set o value }
  | .EchoRAM o => { mmu with wram := mmu.wram.set o value }
  | .OAM o => { mmu with oam := mmu.oam.set o value }
  | .IORegion o => { mmu with io_regs := mmu.io_regs.set o value }
  | .HRAM o => { mmu with hram := mmu.hram.set o value }
  | .IE o => { mmu with ie := mmu.ie.set o value }

/-- MMU::write_byte -- register[offset] = value; an out-of-bounds index in
the source panics, embedded as none, as is the get_location panic on the
unusable range. -/
def MMU.write_byte (mmu : MMU) (addr : Nat) (value : Nat) : Option MMU :=
  match MMU.get_location addr with
  | none => none
  | some location =>
    let rp := location.to_register mmu
    if rp.2 < rp.1.length then some (mmu.set_register location value)
    else none

/-- Checked u8 addition (u8::checked_add): some iff the sum fits a byte. -/
def checked_add8 (x y : Nat) : Option Nat :=
  if x + y ≤ 255 then some (x + y) else none

/-- Checked u16 addition (u16::checked_add): some iff the sum fits 16 bits. -/
def checked_add16 (x y : Nat) : Option Nat :=
  if x + y ≤ 65535 then some (x + y) else none

/-- Checked subtraction (u8::checked_sub / u16::checked_sub): some iff no
underflow; the width does not matter for subtraction. -/
def checked_sub (x y : Nat) : Option Nat :=
  if y ≤ x then some (x - y) else none

/-- Body of the increment8! macro (src/cpu/opcodes.rs): clear flags, checked
add 1; on Some(0) set Zero and store 0, on Some(val) store val, on None set
Carry and return without storing. -/
def increment8 (reg : Reg8) (cpu : SM83RegisterBank) : SM83RegisterBank :=
  let cpu := { cpu with flags := FlagRegister.clear cpu.flags }
  match checked_add8 (cpu.get reg) 1 with
  | some v =>
    if v = 0 then
      let cpu := { cpu with flags := FlagRegister.set cpu.flags Flag.Zero }
      SM83RegisterBank.setReg cpu reg 0
    else SM83RegisterBank.setReg cpu reg v
  | none => { cpu with flags := FlagRegister.set cpu.flags Flag.Carry }

/-- Body of the decrement8! macro: same shape as increment8 with checked
subtraction. -/
def decrement8 (reg : Reg8) (cpu : SM83RegisterBank) : SM83RegisterBank :=
  let cpu := { cpu with flags := FlagRegister.clear cpu.flags }
  match checked_sub (cpu.get reg) 1 with
  | some v =>
    if v = 0 then
      let cpu := { cpu with flags := FlagRegister.set cpu.flags Flag.Zero }
      SM83RegisterBank.setReg cpu reg 0
    else SM83RegisterBank.setReg cpu reg v
  | none => { cpu with flags := FlagRegister.set cpu.flags Flag.Carry }

/-- Body of the increment16! macro: checked add 1 on the combined pair (note:
the macro does NOT clear the flags first); on overflow set Carry and return,
otherwise split the result back into the two cells (setting Zero when the
result is zero). -/
def increment16 (regA regB : Reg8) (cpu : SM83RegisterBank) : SM83RegisterBank :=
  let combined := SM83RegisterBank.combined (cpu.get regA) (cpu.get regB)
  match checked_add16 combined 1 with
  | some v =>
    let cpu :=
      if v = 0 then { cpu with flags := FlagRegister.set cpu.flags Flag.Zero }
      else cpu
    let s := SM83RegisterBank.split v
    SM83RegisterBank.setReg (SM83RegisterBank.setReg cpu regA s.1) regB s.2
  | none => { cpu with flags := FlagRegister.set cpu.flags Flag.Carry }

/-- Body of the decrement16! macro: checked subtract 1 on the combined pair
(no flag clear), split the result back on success. -/
def decrement16 (regA regB : Reg8) (cpu : SM83RegisterBank) : SM83RegisterBank :=
  let combined := SM83RegisterBank.combined (cpu.get regA) (cpu.get regB)
  match checked_sub combined 1 with
  | some v =>
    let cpu :=
      if v = 0 then { cpu with flags := FlagRegister.set cpu.flags Flag.Zero }
      else cpu
    let s := SM83RegisterBank.split v
    SM83RegisterBank.setReg (SM83RegisterBank.setReg cpu regA s.1) regB s.2
  | none => { cpu with flags := FlagRegister.set cpu.flags Flag.Carry }

/-- Body of the add_to_hl! macro: adds hl() to hl() -- the named register
pair is never read -- with no flag clear; on overflow set Carry and return,
otherwise store through set_hl (setting Zero when the result is zero). -/
def add_to_hl (_regA _regB : Reg8) (cpu : SM83RegisterBank) : SM83RegisterBank :=
  match checked_add16 cpu.hl cpu.hl with
  | some v =>
    let cpu :=
      if v = 0 then { cpu with flags := FlagRegister.set cpu.flags Flag.Zero }
      else cpu
    SM83RegisterBank.set_hl cpu v
  | none => { cpu with flags := FlagRegister.set cpu.flags Flag.Carry }

/-- Handler increment_hl_addr (opcode 0x34): clear flags, read the byte at
hl() (the expect-panic on a failed read is embedded as none), checked add 1,
write the result back on success; on overflow set Carry and do not write. -/
def increment_hl_addr (cpu : SM83RegisterBank) (mmu : MMU) :
    Option (SM83RegisterBank × MMU) :=
  let cpu := { cpu with flags := FlagRegister.clear cpu.flags }
  let addr := cpu.hl
  match mmu.read_byte addr with
  | none => none
  | some byte =>
    match checked_add8 byte 1 with
    | some v =>
      if v = 0 then
        let cpu := { cpu with flags := FlagRegister.set cpu.flags Flag.Zero }
        (mmu.write_byte addr 0).map (fun mmu2 => (cpu, mmu2))
      else (mmu.write_byte addr v).map (fun mmu2 => (cpu, mmu2))
    | none => some ({ cpu with flags := FlagRegister.set cpu.flags Flag.Carry }, mmu)

/-- Handler nop (opcode 0x00 and every unimplemented slot): empty body. -/
def nop (cpu : SM83RegisterBank) (mmu : MMU) : Option (SM83RegisterBank × MMU) :=
  some (cpu, mmu)

/-- Handler rotate_a_left_with_carry (opcode 0x07): empty body in the
source. -/
def rotate_a_left_with_carry (cpu : SM83RegisterBank) (mmu : MMU) :
    Option (SM83RegisterBank × MMU) :=
  some (cpu, mmu)

/-- Handler stop (opcode 0x10): empty body in the source. -/
def stop (cpu : SM83RegisterBank) (mmu : MMU) (_ : Nat) :
    Option (SM83RegisterBank × MMU) :=
  some (cpu, mmu)

/-- Handler load_sp_into_immediate_address (opcode 0x08): empty body in the
source. -/
def load_sp_into_immediate_address (cpu : SM83RegisterBank) (mmu : MMU)
    (_ _ : Nat) : Option (SM83RegisterBank × MMU) :=
  some (cpu, mmu)

/-- Body of load_immediate8!(b) (opcode 0x06): store the immediate into b. -/
def load_immediate_into_b (cpu : SM83RegisterBank) (mmu : MMU)
    (immediate : Nat) : Option (SM83RegisterBank × MMU) :=
  some ({ cpu with b := immediate }, mmu)

/-- Body of load_immediate16!(b, c) (opcode 0x01): first immediate into b,
second into c. -/
def load_immediate_into_bc (cpu : SM83RegisterBank) (mmu : MMU)
    (x y : Nat) : Option (SM83RegisterBank × MMU) :=
  some ({ cpu with b := x, c := y }, mmu)

/-- Body of load_reg_into_reg16_addr!(a, b, c) (opcode 0x02): write register
a to the address combined(b, c). -/
def load_a_into_bc_address (cpu : SM83RegisterBank) (mmu : MMU) :
    Option (SM83RegisterBank × MMU) :=
  (mmu.write_byte (SM83RegisterBank.combined cpu.b cpu.c) cpu.a).map
    (fun mmu2 => (cpu, mmu2))

/-- Lifts a handler that only touches the register bank to the shape stored
in the opcode table. -/
def liftRB (f : SM83RegisterBank → SM83RegisterBank) :
    SM83RegisterBank → MMU → Option (SM83RegisterBank × MMU) :=
  fun cpu mmu => some (f cpu, mmu)

/-- Opcode descriptor (src/cpu/opcodes.rs, enum Opcode): handler plus fixed
cycle cost, with the handler arity in the variant. -/
inductive Opcode where
  | Unary (op : SM83RegisterBank → MMU → Option (SM83RegisterBank × MMU))
      (cycles : Nat)
  | Binary (op : SM83RegisterBank → MMU → Nat → Option (SM83RegisterBank × MMU))
      (cycles : Nat)
  | Ternary (op : SM83RegisterBank → MMU → Nat → Nat → Option (SM83RegisterBank × MMU))
      (cycles : Nat)

/-- Opcode::cycle_count. -/
def Opcode.cycle_count : Opcode → Nat
  | .Unary _ cycles => cycles
  | .Binary _ cycles => cycles
  | .Ternary _ cycles => cycles

/-- The SM83_OPERATIONS table (src/cpu/opcodes.rs): a total map over opcode
bytes 0x00-0xFF. Every slot the source fills with a real handler is listed
explicitly; every remaining byte is the nop placeholder, exactly as in the
source list, so the catch-all arm covers only nop slots. Lookup of a value
outside the u8 range (impossible in the source, where keys are u8) is none. -/
def SM83_OPERATIONS (code : Nat) : Option Opcode :=
  match code with
  | 0x00 => some (.Unary nop 1)
  | 0x01 => some (.Ternary load_immediate_into_bc 1)
  | 0x02 => some (.Unary load_a_into_bc_address 1)
  | 0x03 => some (.Unary (liftRB (increment16 .B .C)) 1)
  | 0x04 => some (.Unary (liftRB (increment8 .B)) 1)
  | 0x05 => some (.Unary (liftRB (decrement8 .B)) 1)
  | 0x06 => some (.Binary load_immediate_into_b 1)
  | 0x07 => some (.Unary rotate_a_left_with_carry 1)
  | 0x08 => some (.Ternary load_sp_into_immediate_address 1)
  | 0x09 => some (.Unary (liftRB (add_to_hl .B .C)) 1)
  | 0x0B => some (.Unary (liftRB (decrement16 .B .C)) 1)
  | 0x0C => some (.Unary (liftRB (increment8 .C)) 1)
  | 0x10 => some (.Binary stop 1)
  | 0x13 => some (.Unary (liftRB (increment16 .D .E)) 1)
  | 0x14 => some (.Unary (liftRB (increment8 .D)) 1)
  | 0x19 => some (.Unary (liftRB (add_to_hl .D .E)) 1)
  | 0x1B => some (.Unary (liftRB (decrement16 .D .E)) 1)
  | 0x1C => some (.Unary (liftRB (increment8 .E)) 1)
  | 0x23 => some (.Unary (liftRB (increment16 .H .L)) 1)
  | 0x24 => some (.Unary (liftRB (increment8 .H)) 1)
  | 0x29 => some (.Unary (liftRB (add_to_hl .H .L)) 1)
  | 0x2B => some (.Unary (liftRB (decrement16 .H .L)) 1)
  | 0x2C => some (.Unary (liftRB (increment8 .L)) 1)
  | 0x34 => some (.Unary increment_hl_addr 1)
  | 0x3C => some (.Unary (liftRB (increment8 .A)) 1)
  | c => if c ≤ 0xFF then some (.Unary nop 1) else none

/-- One iteration of the loop body of SM83::run (src/cpu/sm83.rs): fetch the
opcode byte at pc, look it up, fetch 0/1/2 immediates at pc+1 and pc+2,
invoke the handler, then overwrite registers.m with the descriptor's cycle
count and registers.t with four times that (u8 arithmetic, hence mod 256).
The source's continue-and-retry on an absent byte and its unknown-opcode
panic are both embedded as none. The source never modifies pc anywhere in
the loop. -/
def SM83.runStep (bank : SM83RegisterBank) (mmu : MMU) :
    Option (SM83RegisterBank × MMU) :=
  (mmu.read_byte bank.pc).bind fun code =>
    (SM83_OPERATIONS code).bind fun opcode =>
      let executed : Option (SM83RegisterBank × MMU) :=
        match opcode with
        | .Unary op _ => op bank mmu
        | .Binary op _ =>
          match mmu.read_byte (bank.pc + 1) with
          | none => none
          | some immediate => op bank mmu immediate
        | .Ternary op _ =>
          match mmu.read_byte (bank.pc + 1) with
          | none => none
          | some immediateA =>
            match mmu.read_byte (bank.pc + 1 + 1) with
            | none => none
            | some immediateB => op bank mmu immediateA immediateB
      let cycles := opcode.cycle_count
      executed.map (fun bm => ({ bm.1 with m := cycles, t := cycles * 4 % 256 }, bm.2))

/-!
Helper lemmas shared by several proofs below.
-/

/-- Key bit-arithmetic fact behind the XOR-based offset computation in
MMU::get_location: XOR-ing an address against a region base whose low k bits
are zero subtracts the base, provided the offset fits in k bits. -/
theorem xor_mul_pow_add (k m o : Nat) (ho : o < 2 ^ k) :
    (2 ^ k * m + o) ^^^ (2 ^ k * m) = o := by
  apply Nat.eq_of_testBit_eq
  intro j
  rw [Nat.testBit_xor, Nat.testBit_mul_pow_two_add _ ho, Nat.testBit_mul_pow_two]
  by_cases hj : j < k
  · simp [hj, Nat.not_le_of_lt hj]
  · have hof : Nat.testBit o j = false :=
      Nat.testBit_lt_two_pow
        (lt_of_lt_of_le ho (Nat.pow_le_pow_right (by omega) (by omega)))
    simp [hj, Nat.le_of_not_lt hj, hof]

/-- XOR against an aligned base, in the form used by get_location: for an
address between base and base + 2^k, the XOR equals the subtraction. -/
theorem xor_base_eq_sub (k base addr : Nat) (hb : base % 2 ^ k = 0)
    (h1 : base ≤ addr) (h2 : addr < base + 2 ^ k) :
    addr ^^^ base = addr - base := by
  obtain ⟨mq, hmq⟩ : 2 ^ k ∣ base := Nat.dvd_of_mod_eq_zero hb
  have ha : addr = 2 ^ k * mq + (addr - base) := by omega
  have ho : addr - base < 2 ^ k := by omega
  calc addr ^^^ base = (2 ^ k * mq + (addr - base)) ^^^ (2 ^ k * mq) := by
        rw [← ha, hmq]
    _ = addr - base := xor_mul_pow_add k mq (addr - base) ho

/-- Updating the flag register does not change an 8-bit register cell. -/
@[simp]
theorem get_update_flags (cpu : SM83RegisterBank) (f : FlagRegister) (r : Reg8) :
    ({ cpu with flags := f } : SM83RegisterBank).get r = cpu.get r := by
  cases r <;> rfl

/-- Writing an 8-bit register cell does not change the flag register. -/
@[simp]
theorem flags_setReg (cpu : SM83RegisterBank) (r : Reg8) (v : Nat) :
    (SM83RegisterBank.setReg cpu r v).flags = cpu.flags := by
  cases r <;> rfl

/-- Updating the flag register does not change the hl view. -/
@[simp]
theorem hl_update_flags (cpu : SM83RegisterBank) (f : FlagRegister) :
    ({ cpu with flags := f } : SM83RegisterBank).hl = cpu.hl :=
  rfl

/-- Characterisation of get_location on the Work RAM range. -/
theorem get_location_wram (addr : Nat) (h1 : 0xC000 ≤ addr) (h2 : addr ≤ 0xDFFF) :
    MMU.get_location addr = some (.WRAM (addr - 0xC000)) := by
  have hxor : addr ^^^ 0xC000 = addr - 0xC000 :=
    xor_base_eq_sub 13 0xC000 addr (by norm_num) h1 (by omega)
  have n1 : ¬ addr ≤ 0x3FFF := by omega
  have n2 : ¬ addr ≤ 0x7FFF := by omega
  have n3 : ¬ addr ≤ 0x9FFF := by omega
  have n4 : ¬ addr ≤ 0xBFFF := by omega
  unfold MMU.get_location
  rw [if_neg n1, if_neg n2, if_neg n3, if_neg n4, if_pos h2, hxor]

/-- Characterisation of get_location on the Echo RAM range. -/
theorem get_location_echo (addr : Nat) (h1 : 0xE000 ≤ addr) (h2 : addr ≤ 0xFDFF) :
    MMU.get_location addr = some (.EchoRAM (addr - 0xE000)) := by
  have hxor : addr ^^^ 0xE000 = addr - 0xE000 :=
    xor_base_eq_sub 13 0xE000 addr (by norm_num) h1 (by omega)
  have n1 : ¬ addr ≤ 0x3FFF := by omega
  have n2 : ¬ addr ≤ 0x7FFF := by omega
  have n3 : ¬ addr ≤ 0x9FFF := by omega
  have n4 : ¬ addr ≤ 0xBFFF := by omega
  have n5 : ¬ addr ≤ 0xDFFF := by omega
  unfold MMU.get_location
  rw [if_neg n1, if_neg n2, if_neg n3, if_neg n4, if_neg n5, if_pos h2, hxor]

/-!
The claim theorems.
-/

/-- C1. The claim states that in every iteration of SM83::run the program
counter is advanced past the opcode byte and its immediate operands (by 1
for the arity-0 no-op) before the next iteration. The code never modifies
pc anywhere in the loop body: starting from a fresh register bank (pc = 0)
and a fresh MMU (byte 0x00, the no-op, at address 0), one full iteration
completes and leaves pc exactly where it was, whereas the claim requires
pc = 1 afterwards. -/
theorem C1_pc_not_advanced :
    ∃ out, SM83.runStep SM83RegisterBank.new MMU.new = some out ∧
      out.1.pc = SM83RegisterBank.new.pc :=
  ⟨({ SM83RegisterBank.new with m := 1, t := 4 }, MMU.new), rfl, rfl⟩

/-- C4. The claim states that every address outside the unusable range gets
an in-bounds offset, in particular 0xFFFF. The source arm for 0xFFFF is
IE(0xFFFF): it passes the raw address instead of an offset, while the IE
buffer allocated by MMU::new holds a single byte, so read_byte(0xFFFF)
returns None on a fresh MMU. -/
theorem C4_ie_offset_out_of_bounds :
    MMU.get_location 0xFFFF = some (MemoryLocation.IE 0xFFFF) ∧
    MMU.read_byte MMU.new 0xFFFF = none :=
  ⟨rfl, rfl⟩

/-- C5 counterexample. The claim states that classification itself never
fails, including on the unusable range 0xFEA0-0xFEFF. In the source,
MMU::get_location itself panics on that range (embedded here as none), so
classification is exactly where the failure happens. -/
theorem C5_classification_panics_on_unusable :
    MMU.get_location 0xFEA0 = none :=
  rfl

set_option maxHeartbeats 1000000 in
/-- C5 amended. get_location is a pure total function on every 16-bit
address outside the unusable range 0xFEA0-0xFEFF; on the unusable range the
classification itself is the fatal (panicking) step, which is what makes
any read or write against that range fatal. -/
theorem C5_classification_total_outside_unusable :
    ∀ addr : Nat, addr ≤ 0xFFFF →
      ((0xFEA0 ≤ addr ∧ addr ≤ 0xFEFF) → MMU.get_location addr = none) ∧
      ((addr < 0xFEA0 ∨ 0xFEFF < addr) → (MMU.get_location addr).isSome = true) := by
  intro addr _
  constructor
  · rintro ⟨h1, h2⟩
    have n1 : ¬ addr ≤ 0x3FFF := by omega
    have n2 : ¬ addr ≤ 0x7FFF := by omega
    have n3 : ¬ addr ≤ 0x9FFF := by omega
    have n4 : ¬ addr ≤ 0xBFFF := by omega
    have n5 : ¬ addr ≤ 0xDFFF := by omega
    have n6 : ¬ addr ≤ 0xFDFF := by omega
    have n7 : ¬ addr ≤ 0xFE9F := by omega
    unfold MMU.get_location
    rw [if_neg n1, if_neg n2, if_neg n3, if_neg n4, if_neg n5, if_neg n6,
      if_neg n7, if_pos h2]
  · intro h
    unfold MMU.get_location
    split_ifs <;> first | rfl | omega

/-- C5 witness: the amended theorem evaluated at address 0xFEA0. -/
theorem C5_classification_total_outside_unusable_witness :
    0xFEA0 ≤ 0xFFFF ∧
    (((0xFEA0 ≤ 0xFEA0 ∧ 0xFEA0 ≤ 0xFEFF) → MMU.get_location 0xFEA0 = none) ∧
     ((0xFEA0 < 0xFEA0 ∨ 0xFEFF < 0xFEA0) →
       (MMU.get_location 0xFEA0).isSome = true)) :=
  ⟨by decide, C5_classification_total_outside_unusable 0xFEA0 (by decide)⟩

/-- C7. split is the exact inverse of combined on byte pairs, with the
first argument of combined the low byte: for all bytes lo and hi,
split (combined lo hi) = (lo, hi). -/
theorem C7_split_combined_round_trip :
    ∀ lo hi : Nat, lo < 256 → hi < 256 →
      SM83RegisterBank.split (SM83RegisterBank.combined lo hi) = (lo, hi) := by
  intro lo hi hlo hhi
  unfold SM83RegisterBank.split SM83RegisterBank.combined
  simp only [Prod.mk.injEq]
  omega

/-- C7 witness: the round trip evaluated at the byte pair (3, 200). -/
theorem C7_split_combined_round_trip_witness :
    3 < 256 ∧ 200 < 256 ∧
    SM83RegisterBank.split (SM83RegisterBank.combined 3 200) = (3, 200) :=
  ⟨by decide, by decide,
    C7_split_combined_round_trip 3 200 (by decide) (by decide)⟩

/-- C6. Echo RAM aliases Work RAM through the shared wram backing buffer:
on any MMU whose wram buffer has its allocated size of 8192 bytes, writing a
byte at 0xC000 + o and reading at 0xE000 + o returns it, and vice versa,
for every offset o in the shared window 0x0000-0x1DFF. -/
theorem C6_echo_ram_aliases_wram :
    ∀ (mmu : MMU) (o v : Nat), o ≤ 0x1DFF → v < 256 → mmu.wram.length = 8192 →
      (∃ mmu1, MMU.write_byte mmu (0xC000 + o) v = some mmu1 ∧
        MMU.read_byte mmu1 (0xE000 + o) = some v) ∧
      (∃ mmu2, MMU.write_byte mmu (0xE000 + o) v = some mmu2 ∧
        MMU.read_byte mmu2 (0xC000 + o) = some v) := by
  intro mmu o v ho _hv hlen
  have hoff : o < mmu.wram.length := by omega
  have hw : MMU.get_location (0xC000 + o) = some (.WRAM o) := by
    rw [get_location_wram (0xC000 + o) (by omega) (by omega),
      Nat.add_sub_cancel_left]
  have he : MMU.get_location (0xE000 + o) = some (.EchoRAM o) := by
    rw [get_location_echo (0xE000 + o) (by omega) (by omega),
      Nat.add_sub_cancel_left]
  have hget : (mmu.wram.set o v).get? o = some v := by
    rw [List.get?_set_of_lt' v mmu.wram hoff]
    simp
  constructor
  · refine ⟨{ mmu with wram := mmu.wram.set o v }, ?_, ?_⟩
    · unfold MMU.write_byte
      rw [hw]
      simp [MemoryLocation.to_register, MemoryLocation.unwrap_value,
        MMU.set_register, hoff]
    · unfold MMU.read_byte
      rw [he]
      simpa [MemoryLocation.to_register, MemoryLocation.unwrap_value] using hget
  · refine ⟨{ mmu with wram := mmu.wram.set o v }, ?_, ?_⟩
    · unfold MMU.write_byte
      rw [he]
      simp [MemoryLocation.to_register, MemoryLocation.unwrap_value,
        MMU.set_register, hoff]
    · unfold MMU.read_byte
      rw [hw]
      simpa [MemoryLocation.to_register, MemoryLocation.unwrap_value] using hget

/-- C6 witness: the aliasing evaluated at offset 0x10 and byte 0xAB on a
fresh MMU. -/
theorem C6_echo_ram_aliases_wram_witness :
    (0x10 ≤ 0x1DFF ∧ 0xAB < 256 ∧ MMU.new.wram.length = 8192) ∧
    ((∃ mmu1, MMU.write_byte MMU.new (0xC000 + 0x10) 0xAB = some mmu1 ∧
        MMU.read_byte mmu1 (0xE000 + 0x10) = some 0xAB) ∧
     (∃ mmu2, MMU.write_byte MMU.new (0xE000 + 0x10) 0xAB = some mmu2 ∧
        MMU.read_byte mmu2 (0xC000 + 0x10) = some 0xAB)) :=
  ⟨⟨by decide, by decide, by simp only [MMU.new, List.length_replicate]⟩,
    C6_echo_ram_aliases_wram MMU.new 0x10 0xAB (by decide) (by decide)
      (by simp only [MMU.new, List.length_replicate])⟩

/-- C2 counterexample. The claim states that every arithmetic handler --
including the 16-bit register-pair increment -- clears all four flags
before computing. Run increment_bc (increment16 on the pair b, c) from a
bank whose flag byte is 0x80 (Zero set) with b = c = 0: the addition
succeeds with the nonzero result 1, so under the claimed clear-on-entry
policy the final Zero check would be false; in the code the prior flags
survive untouched and the Zero check still reads true. -/
theorem C2_increment16_does_not_clear_flags :
    (increment16 Reg8.B Reg8.C
        { SM83RegisterBank.new with flags := ⟨0x80⟩ }).flags.check Flag.Zero
      = true := by
  rfl

/-- C2 amended. Only the 8-bit increment and decrement handlers clear all
four flags before computing (their result is independent of the incoming
flag byte); the 16-bit register-pair increment and decrement and the
add-to-HL handlers never clear: they leave the incoming flag register
untouched except for possibly OR-ing in the Zero or the Carry bit. -/
theorem C2_flag_clear_policy :
    (∀ (r : Reg8) (cpu : SM83RegisterBank) (f : FlagRegister),
      increment8 r { cpu with flags := f } = increment8 r cpu) ∧
    (∀ (r : Reg8) (cpu : SM83RegisterBank) (f : FlagRegister),
      decrement8 r { cpu with flags := f } = decrement8 r cpu) ∧
    (∀ (rA rB : Reg8) (cpu : SM83RegisterBank),
      (increment16 rA rB cpu).flags = cpu.flags ∨
      (increment16 rA rB cpu).flags = FlagRegister.set cpu.flags Flag.Zero ∨
      (increment16 rA rB cpu).flags = FlagRegister.set cpu.flags Flag.Carry) ∧
    (∀ (rA rB : Reg8) (cpu : SM83RegisterBank),
      (decrement16 rA rB cpu).flags = cpu.flags ∨
      (decrement16 rA rB cpu).flags = FlagRegister.set cpu.flags Flag.Zero ∨
      (decrement16 rA rB cpu).flags = FlagRegister.set cpu.flags Flag.Carry) ∧
    (∀ (rA rB : Reg8) (cpu : SM83RegisterBank),
      (add_to_hl rA rB cpu).flags = cpu.flags ∨
      (add_to_hl rA rB cpu).flags = FlagRegister.set cpu.flags Flag.Zero ∨
      (add_to_hl rA rB cpu).flags = FlagRegister.set cpu.flags Flag.Carry) := by
  refine ⟨?_, ?_, ?_, ?_, ?_⟩
  · intro r cpu f
    rfl
  · intro r cpu f
    rfl
  · intro rA rB cpu
    cases h : checked_add16
        (SM83RegisterBank.combined (cpu.get rA) (cpu.get rB)) 1 with
    | none => right; right; simp [increment16, h]
    | some v =>
      by_cases hv : v = 0
      · right; left; simp [increment16, h, hv]
      · left; simp [increment16, h, hv]
  · intro rA rB cpu
    cases h : checked_sub
        (SM83RegisterBank.combined (cpu.get rA) (cpu.get rB)) 1 with
    | none => right; right; simp [decrement16, h]
    | some v =>
      by_cases hv : v = 0
      · right; left; simp [decrement16, h, hv]
      · left; simp [decrement16, h, hv]
  · intro rA rB cpu
    cases h : checked_add16 cpu.hl cpu.hl with
    | none => right; right; simp [add_to_hl, h]
    | some v =>
      by_cases hv : v = 0
      · right; left; simp [add_to_hl, h, hv, SM83RegisterBank.set_hl]
      · left; simp [add_to_hl, h, hv, SM83RegisterBank.set_hl]

/-- C3. On every overflowing or underflowing input, each arithmetic handler
sets the Carry flag, leaves every destination register cell (and, for the
memory-target handler, the memory) exactly as it was before the call, and
performs no Zero-flag update: for the 8-bit handlers the final flag byte is
exactly 0x10 (cleared, then Carry), for the 16-bit handlers it is the prior
flag byte with Carry OR-ed in. -/
theorem C3_overflow_sets_carry_and_skips_store :
    (∀ (r : Reg8) (cpu : SM83RegisterBank), 255 ≤ cpu.get r →
      increment8 r cpu = { cpu with flags := ⟨0x10⟩ }) ∧
    (∀ (r : Reg8) (cpu : SM83RegisterBank), cpu.get r = 0 →
      decrement8 r cpu = { cpu with flags := ⟨0x10⟩ }) ∧
    (∀ (rA rB : Reg8) (cpu : SM83RegisterBank),
      65535 ≤ SM83RegisterBank.combined (cpu.get rA) (cpu.get rB) →
      increment16 rA rB cpu =
        { cpu with flags := FlagRegister.set cpu.flags Flag.Carry }) ∧
    (∀ (rA rB : Reg8) (cpu : SM83RegisterBank),
      SM83RegisterBank.combined (cpu.get rA) (cpu.get rB) = 0 →
      decrement16 rA rB cpu =
        { cpu with flags := FlagRegister.set cpu.flags Flag.Carry }) ∧
    (∀ (rA rB : Reg8) (cpu : SM83RegisterBank), 65535 < cpu.hl + cpu.hl →
      add_to_hl rA rB cpu =
        { cpu with flags := FlagRegister.set cpu.flags Flag.Carry }) ∧
    (∀ (cpu : SM83RegisterBank) (mmu : MMU) (byte : Nat),
      mmu.read_byte cpu.hl = some byte → 255 ≤ byte →
      increment_hl_addr cpu mmu =
        some ({ cpu with flags := ⟨0x10⟩ }, mmu)) := by
  refine ⟨?_, ?_, ?_, ?_, ?_, ?_⟩
  · intro r cpu hr
    have hno : ¬ (cpu.get r + 1 ≤ 255) := by omega
    simp [increment8, checked_add8, hno, FlagRegister.clear, FlagRegister.set,
      Flag.value]
  · intro r cpu hr
    have hno : ¬ (1 ≤ cpu.get r) := by omega
    simp [decrement8, checked_sub, hno, FlagRegister.clear, FlagRegister.set,
      Flag.value]
  · intro rA rB cpu hr
    have hno : ¬ (SM83RegisterBank.combined (cpu.get rA) (cpu.get rB) + 1
        ≤ 65535) := by omega
    simp [increment16, checked_add16, hno]
  · intro rA rB cpu hr
    have hno : ¬ (1 ≤ SM83RegisterBank.combined (cpu.get rA) (cpu.get rB)) := by
      omega
    simp [decrement16, checked_sub, hno]
  · intro rA rB cpu hr
    have hno : ¬ (cpu.hl + cpu.hl ≤ 65535) := by omega
    simp [add_to_hl, checked_add16, hno]
  · intro cpu mmu byte hread hb
    have hno : ¬ (byte + 1 ≤ 255) := by omega
    simp [increment_hl_addr, hread, checked_add8, hno, FlagRegister.clear,
      FlagRegister.set, Flag.value]

/-- C3 witness: each overflow branch evaluated at a concrete input --
increment of a register holding 0xFF, decrement of 0x00, 16-bit increment
of 0xFFFF, 16-bit decrement of 0x0000, add-to-HL with hl = 0x8000, and
increment of a memory byte holding 0xFF. -/
theorem C3_overflow_sets_carry_and_skips_store_witness :
    (increment8 Reg8.B { SM83RegisterBank.new with b := 255 } =
      { { SM83RegisterBank.new with b := 255 } with flags := ⟨0x10⟩ }) ∧
    (decrement8 Reg8.B SM83RegisterBank.new =
      { SM83RegisterBank.new with flags := ⟨0x10⟩ }) ∧
    (increment16 Reg8.B Reg8.C { SM83RegisterBank.new with b := 255, c := 255 } =
      { { SM83RegisterBank.new with b := 255, c := 255 } with
          flags := FlagRegister.set FlagRegister.new Flag.Carry }) ∧
    (decrement16 Reg8.B Reg8.C SM83RegisterBank.new =
      { SM83RegisterBank.new with
          flags := FlagRegister.set FlagRegister.new Flag.Carry }) ∧
    (add_to_hl Reg8.B Reg8.C { SM83RegisterBank.new with l := 128 } =
      { { SM83RegisterBank.new with l := 128 } with
          flags := FlagRegister.set FlagRegister.new Flag.Carry }) ∧
    (increment_hl_addr SM83RegisterBank.new
        { MMU.new with cartridge := MMU.new.cartridge.set 0 255 } =
      some ({ SM83RegisterBank.new with flags := ⟨0x10⟩ },
        { MMU.new with cartridge := MMU.new.cartridge.set 0 255 })) :=
  ⟨C3_overflow_sets_carry_and_skips_store.1 Reg8.B _ (by decide),
   C3_overflow_sets_carry_and_skips_store.2.1 Reg8.B _ (by decide),
   C3_overflow_sets_carry_and_skips_store.2.2.1 Reg8.B Reg8.C _ (by decide),
   C3_overflow_sets_carry_and_skips_store.2.2.2.1 Reg8.B Reg8.C _ (by decide),
   C3_overflow_sets_carry_and_skips_store.2.2.2.2.1 Reg8.B Reg8.C _ (by decide),
   C3_overflow_sets_carry_and_skips_store.2.2.2.2.2 SM83RegisterBank.new _ 255
     (by rfl) (by decide)⟩

/-- C10. The 8-bit increment handler can never set the Zero flag: for every
register and every byte-valued starting cell, checked addition of 1 either
returns the nonzero successor or signals overflow, so the Some(0) branch
that would set Zero is unreachable and the final Zero check is false. -/
theorem C10_increment8_never_sets_zero :
    ∀ (r : Reg8) (cpu : SM83RegisterBank), cpu.get r < 256 →
      (increment8 r cpu).flags.check Flag.Zero = false := by
  intro r cpu _h
  cases hc : checked_add8 (cpu.get r) 1 with
  | none =>
    simp [increment8, hc, FlagRegister.check, FlagRegister.clear,
      FlagRegister.set, Flag.value]
  | some v =>
    have hv : v ≠ 0 := by
      unfold checked_add8 at hc
      by_cases hle : cpu.get r + 1 ≤ 255 <;> simp [hle] at hc
      omega
    simp [increment8, hc, hv, FlagRegister.check, FlagRegister.clear,
      Flag.value]

/-- C10 witness: the increment of register a from a fresh bank (value 0)
leaves the Zero flag clear. -/
theorem C10_increment8_never_sets_zero_witness :
    SM83RegisterBank.new.get Reg8.A < 256 ∧
    (increment8 Reg8.A SM83RegisterBank.new).flags.check Flag.Zero = false :=
  ⟨by decide, C10_increment8_never_sets_zero Reg8.A SM83RegisterBank.new
    (by decide)⟩

/-- Operation alphabet of the FlagRegister interface, used to state the C9
invariant over every sequence of set, unset, clear and check calls. -/
inductive FlagOp where
  | set (f : Flag)
  | unset (f : Flag)
  | clear
  | check (f : Flag)

/-- Applying one FlagRegister operation to the register state; check reads
without mutating. -/
def FlagRegister.applyOp (fr : FlagRegister) : FlagOp → FlagRegister
  | .set f => fr.set f
  | .unset f => fr.unset f
  | .clear => fr.clear
  | .check _ => fr

/-- Masking with 15 is reduction mod 16. -/
theorem and15_eq_mod16 (x : Nat) : x &&& 15 = x % 16 := by
  have hx := Nat.and_pow_two_sub_one_eq_mod x 4
  norm_num at hx
  exact hx

/-- OR of two numbers with zero low nibble has zero low nibble. -/
theorem mod16_lor {v w : Nat} (hv : v % 16 = 0) (hw : w % 16 = 0) :
    (v ||| w) % 16 = 0 := by
  rw [← and15_eq_mod16] at hv hw ⊢
  rw [Nat.and_distrib_right, hv, hw]
  simp

/-- AND of a number with zero low nibble has zero low nibble. -/
theorem mod16_land {v : Nat} (x : Nat) (hv : v % 16 = 0) :
    (v &&& x) % 16 = 0 := by
  rw [← and15_eq_mod16] at hv ⊢
  rw [Nat.and_assoc, Nat.and_comm x 15, ← Nat.and_assoc, hv]
  simp

/-- Every flag bit lives in the high nibble. -/
theorem flag_value_mod16 (f : Flag) : f.value % 16 = 0 := by
  cases f <;> rfl

/-- Any sequence of FlagRegister operations preserves a zero low nibble. -/
theorem foldl_applyOp_mod16 :
    ∀ (ops : List FlagOp) (fr : FlagRegister), fr.value % 16 = 0 →
      (ops.foldl FlagRegister.applyOp fr).value % 16 = 0 := by
  intro ops
  induction ops with
  | nil => intro fr hfr; exact hfr
  | cons op rest ih =>
    intro fr hfr
    refine ih _ ?_
    cases op with
    | set f =>
      simpa [FlagRegister.applyOp, FlagRegister.set] using
        mod16_lor hfr (flag_value_mod16 f)
    | unset f =>
      simpa [FlagRegister.applyOp, FlagRegister.unset] using
        mod16_land (255 ^^^ f.value) hfr
    | clear => simp [FlagRegister.applyOp, FlagRegister.clear]
    | check f => simpa [FlagRegister.applyOp] using hfr

/-- C9. Bits 3-0 of the flag register are zero in the state produced by
FlagRegister::new and stay zero across every sequence of set, unset, clear
and check operations, because each operation only ever touches the four
meaningful bits 0x80, 0x40, 0x20, 0x10. -/
theorem C9_low_nibble_always_zero :
    FlagRegister.new.value % 16 = 0 ∧
    ∀ ops : List FlagOp,
      (ops.foldl FlagRegister.applyOp FlagRegister.new).value % 16 = 0 :=
  ⟨rfl, fun ops => foldl_applyOp_mod16 ops FlagRegister.new rfl⟩

/-- Every opcode descriptor in the SM83_OPERATIONS table carries the fixed
cycle cost 1. -/
theorem cycle_count_eq_one :
    ∀ code opcode, SM83_OPERATIONS code = some opcode →
      opcode.cycle_count = 1 := by
  intro code opcode hcode
  unfold SM83_OPERATIONS at hcode
  split at hcode <;>
    first
      | (injection hcode with hcode; subst hcode; rfl)
      | (split at hcode <;>
          first
            | (injection hcode with hcode; subst hcode; rfl)
            | simp_all)

/-- C8. After every instruction the run loop completes, the register bank's
clock counter m equals that instruction's fixed cycle cost from its opcode
descriptor and t equals four times m, overwriting whatever m and t held
before; the witness below evaluates this after opcode 0x00 (no-op, cost 1),
where m = 1 and t = 4. -/
theorem C8_clock_set_from_descriptor :
    ∀ (bank : SM83RegisterBank) (mmu : MMU) (out : SM83RegisterBank × MMU),
      SM83.runStep bank mmu = some out →
      ∃ code opcode, MMU.read_byte mmu bank.pc = some code ∧
        SM83_OPERATIONS code = some opcode ∧
        out.1.m = opcode.cycle_count ∧ out.1.t = 4 * out.1.m := by
  intro bank mmu out hstep
  unfold SM83.runStep at hstep
  cases hr : MMU.read_byte mmu bank.pc with
  | none => rw [hr] at hstep; exact absurd hstep (by simp)
  | some code =>
    rw [hr] at hstep
    simp only [Option.some_bind] at hstep
    cases ht : SM83_OPERATIONS code with
    | none => rw [ht] at hstep; exact absurd hstep (by simp)
    | some opcode =>
      rw [ht] at hstep
      simp only [Option.some_bind, Option.map_eq_some'] at hstep
      obtain ⟨bm, -, hout⟩ := hstep
      have hone : opcode.cycle_count = 1 := cycle_count_eq_one code opcode ht
      refine ⟨code, opcode, rfl, ht, ?_, ?_⟩
      · rw [← hout]
      · rw [← hout]
        simp [hone]

/-- C8 witness: one full iteration from a fresh bank and a fresh MMU
executes opcode 0x00 (the no-op) and leaves m = 1 and t = 4. -/
theorem C8_clock_set_from_descriptor_witness :
    SM83.runStep SM83RegisterBank.new MMU.new =
      some ({ SM83RegisterBank.new with m := 1, t := 4 }, MMU.new) ∧
    (∃ code opcode,
      MMU.read_byte MMU.new SM83RegisterBank.new.pc = some code ∧
      SM83_OPERATIONS code = some opcode ∧
      ({ SM83RegisterBank.new with m := 1, t := 4 } :
        SM83RegisterBank).m = opcode.cycle_count ∧
      ({ SM83RegisterBank.new with m := 1, t := 4 } :
        SM83RegisterBank).t =
        4 * ({ SM83RegisterBank.new with m := 1, t := 4 } :
          SM83RegisterBank).m) :=
  ⟨rfl, C8_clock_set_from_descriptor SM83RegisterBank.new MMU.new
    ({ SM83RegisterBank.new with m := 1, t := 4 }, MMU.new) rfl⟩

end Magi
